import Mathlib

/-!
# CShell: a shallow embedding of `src/cshell.c`

The development models the tokenizer `str_split` (with the C library routine
`strtok` it is built on), the signal handler `handle_sigint`, the helper
`free_char_array` and one pass through the body of the `while (1)` loop of
`main`.  Calls into the operating system are recorded as events of a trace, and
their results are read from an environment record, so that every branch of the
source is a branch of the model.
-/

namespace CShell

/-! ## Strings and constants -/

/-- The contents of a C string: the characters that precede the terminating NUL. -/
abbrev CStr := List Char

/-- The value of `SIGINT` in `<signal.h>`. -/
def SIGINT : Int := 2

/-- The value of `SIGQUIT` in `<signal.h>`. -/
def SIGQUIT : Int := 3

/-- The value of `EINTR` in `<errno.h>`. -/
def EINTR : Int := 4

/-- The value of `EFAULT` in `<errno.h>`. -/
def EFAULT : Int := 14

/-- The value of `EXIT_SUCCESS` in `<stdlib.h>`. -/
def EXIT_SUCCESS : Int := 0

/-- The value of `EXIT_FAILURE` in `<stdlib.h>`. -/
def EXIT_FAILURE : Int := 1

/-! ## The tokenizer (`cshell.c`, lines 27-58) -/

/-- One call of the C library routine `strtok`, scanning from `s` (the string
handed in on the first call, the saved position on the later calls).  Leading
delimiter characters are skipped; when nothing is left the call returns NULL
(`none`); otherwise the token runs up to the next delimiter, and the saved
position is just behind that delimiter (or at the end of the string). -/
def strtok (s : CStr) (delim : CStr) : Option (CStr × CStr) :=
  let start := s.dropWhile (fun c => decide (c ∈ delim))
  match start with
  | [] => none
  | _ :: _ =>
    let token := start.takeWhile (fun c => !decide (c ∈ delim))
    let after := start.dropWhile (fun c => !decide (c ∈ delim))
    some (token, after.drop 1)

/-- Lines 40-44: when the last character of the copied word is a newline it is
overwritten by NUL.  (`strtok` never returns an empty token, so the word has a
last character.) -/
def strip_newline (word : CStr) : CStr :=
  if word.getLast? = some '\n' then word.dropLast else word

/-- What `str_split` hands back: the array of words and the value stored
through `len`. -/
structure Split where
  tokens : List CStr
  len : Nat
deriving DecidableEq, Repr

/-- The `while (token != NULL)` loop of `str_split`.  The second argument is
the result of the latest `strtok` call (the current token and the saved
position).  The first argument bounds the number of iterations; `none` means
that the bound was reached before the loop ended. -/
def str_split_loop : Nat → Option (CStr × CStr) → List CStr → Nat → Option Split
  | 0, _, _, _ => none
  | _ + 1, none, tokens, token_count => some ⟨tokens, token_count⟩
  | fuel + 1, some (token, saved), tokens, token_count =>
    str_split_loop fuel (strtok saved [' ']) (tokens ++ [strip_newline token]) (token_count + 1)

/-- The function `str_split(str, delim, len)`: the first token is cut with
`delim`, every later one with the literal `" "` of line 52. -/
def str_split (str : CStr) (delim : CStr) : Option Split :=
  str_split_loop (str.length + 1) (strtok str delim) [] 0

/-! ## Words, as the specification speaks of them -/

/-- The whitespace characters the specification names: space, tab, newline. -/
def isBlank (c : Char) : Bool := c == ' ' || c == '\t' || c == '\n'

/-- The space character alone, the delimiter `main` passes to `str_split`. -/
def isSpace (c : Char) : Bool := c == ' '

/-- The words of a line with respect to a class of delimiter characters: the
line is cut at every delimiter and the empty pieces are dropped. -/
def words_by (p : Char → Bool) (line : CStr) : List CStr :=
  (line.splitOnP p).filter (fun w => !w.isEmpty)

/-- The whitespace-delimited words of a line. -/
def whitespace_words (line : CStr) : List CStr := words_by isBlank line

/-- The space-delimited words of a line. -/
def space_words (line : CStr) : List CStr := words_by isSpace line

/-- A command line as typed: `lead` spaces, then each word of `pre` followed by
one more than the given number of spaces, then the last word and a newline. -/
def command_line (lead : Nat) (pre : List (CStr × Nat)) (last : CStr) : CStr :=
  List.replicate lead ' ' ++
    (pre.flatMap (fun wg => wg.1 ++ List.replicate (wg.2 + 1) ' ') ++ (last ++ ['\n']))

/-- The words of `command_line lead pre last`, in order. -/
def command_words (pre : List (CStr × Nat)) (last : CStr) : List CStr :=
  pre.map (fun wg => wg.1) ++ [last]

/-! ## The signal bridge (lines 22, 72-87) -/

/-- The globals the loop depends on: the flag `interrupted` of line 22 and the
C library's `errno`. -/
structure State where
  interrupted : Int
  errno : Int
deriving DecidableEq, Repr

/-- The handler `handle_sigint(sig)` of lines 72-78. -/
def handle_sigint (sig : Int) (st : State) : State :=
  if sig = SIGINT then { st with interrupted := 1 } else st

/-- The signals `main` installs `handle_sigint` for (lines 86-87). -/
def installed_signals : List Int := [SIGINT, SIGQUIT]

/-- The handler run once for each signal of a list, in order of delivery. -/
def deliver (sigs : List Int) (st : State) : State :=
  sigs.foldl (fun s sig => handle_sigint sig s) st

/-! ## Memory, events and the environment -/

/-- What a `char *` read from memory can be: NULL, the address of a string, or
a bit pattern that is not the address of anything readable. -/
inductive Ptr where
  | null
  | str (s : CStr)
  | wild
deriving DecidableEq, Repr

/-- The heap blocks of one pass through the loop: the buffer of `getcwd`, the
line buffer of `getline`, the copy `str_split` makes of the word with a given
index, and the array of words. -/
inductive Buf where
  | cwd
  | input
  | word (i : Nat)
  | tokens
deriving DecidableEq, Repr

/-- The diagnostics the loop writes to the error stream. -/
inductive Msg where
  | too_many_arguments
  | no_passwd_entry
  | chdir_failed (arg : Ptr)
  | fork_failed
  | exec_failed
  | wait_failed
  | read_failed
deriving DecidableEq, Repr

/-- The calls one pass through the loop makes, in the order it makes them.
An `alloc` stands for the allocation made inside `getcwd`, `getline` or
`str_split`; a `free` for a call of `free` on a pointer that is not NULL.  The
`argv` of `execvp` is the argument vector the call reads: the words in memory
from the address it is given up to the first NULL. -/
inductive Event where
  | getcwd
  | show_prompt (cwd : Option CStr)
  | alloc (b : Buf)
  | free (b : Buf)
  | getline
  | clearerr
  | put_newline
  | str_split (str : CStr)
  | stderr (m : Msg)
  | getpwuid
  | chdir (target : CStr)
  | fork
  | execvp (file : CStr) (argv : List Ptr)
  | waitpid (pid : Int)
deriving DecidableEq, Repr

/-- How one pass through the loop body ends for the process that runs it:
back at the head of the loop, `exit` with a status, an access to memory the
program does not own, the process image replaced by `execvp`, or the bound on
the tokenizer loop reached. -/
inductive Outcome where
  | reprompt
  | exit (status : Int)
  | fault
  | image_replaced
  | no_fuel
deriving DecidableEq, Repr

/-- The result of `getline`: a line, or -1 with or without a buffer having
been allocated and with or without `errno` having been set (at end of input it
is not). -/
inductive ReadResult where
  | line (input : CStr)
  | failure (buffer : Bool) (err : Option Int)
deriving DecidableEq, Repr

/-- The result of a system call: its value, or its failure value together
with the number it stored in `errno`. -/
inductive Call (α : Type) where
  | ok (value : α)
  | error (errno : Int)
deriving DecidableEq, Repr

/-- Everything outside the program that one pass through the loop body reads:
the results of the system calls, the signals delivered before the check of line 112
and between `fork` and the checks of lines 195 and 225, the word that lies
in the heap right behind the array of tokens (`past`) and the words that
follow it (`beyond`; behind the last of them lies a NULL word).  The field
`execvp` is what the call does with an argument vector it can read: `none`
when it replaces the process image, otherwise its return value and `errno`. -/
structure Env where
  getcwd : Call CStr
  signals_read : List Int
  getline : ReadResult
  past : Ptr
  beyond : List Ptr
  getpwuid : Call CStr
  chdir : CStr → Option Int
  fork : Call Int
  signals_fork : List Int
  execvp : Option (Int × Int)
  waitpid : Call Int

/-- What one pass leaves behind. -/
structure Result where
  outcome : Outcome
  state : State
  trace : List Event
deriving DecidableEq, Repr

/-- The events `tr` followed by a result. -/
def Result.after (tr : List Event) (r : Result) : Result :=
  { r with trace := tr ++ r.trace }

/-! ## The loop body of `main` (lines 91-245) -/

/-- The function `free_char_array(array, size)` of lines 61-69: `free` on each
of the `size` words, then on the array.  (`main` calls it only behind the read
of `tokens[0]`, so the array is never NULL there.) -/
def free_char_array (size : Nat) : List Event :=
  (List.range size).map (fun i => Event.free (Buf.word i)) ++ [Event.free Buf.tokens]

/-- The allocations of `str_split` when it returns `len` words: one `malloc`
for each word and, when there is a word, the array grown by `realloc`. -/
def str_split_allocs (len : Nat) : List Event :=
  (List.range len).map (fun i => Event.alloc (Buf.word i)) ++
    (if 0 < len then [Event.alloc Buf.tokens] else [])

/-- The pair `free(input); free_char_array(tokens, tokens_len);` that ends
every branch behind the tokenizer. -/
def release (tokens_len : Nat) : List Event :=
  Event.free Buf.input :: free_char_array tokens_len

/-- Lines 167-170: the call of `chdir` and its diagnostic. -/
def main_chdir (env : Env) (st : State) (arg : Ptr) (target_dir : CStr)
    (tr : List Event) : Result :=
  match env.chdir target_dir with
  | none => ⟨Outcome.reprompt, st, tr ++ [Event.chdir target_dir]⟩
  | some e =>
    ⟨Outcome.reprompt, { st with errno := e },
      tr ++ [Event.chdir target_dir, Event.stderr (Msg.chdir_failed arg)]⟩

/-- Lines 156-167: the account lookup.  When it fails the diagnostic is
written and `pw->pw_dir` is read through the NULL pointer. -/
def main_cd_home (env : Env) (st : State) (arg : Ptr) : Result :=
  match env.getpwuid with
  | Call.error e =>
    ⟨Outcome.fault, { st with errno := e }, [Event.getpwuid, Event.stderr Msg.no_passwd_entry]⟩
  | Call.ok pw_dir => main_chdir env st arg pw_dir [Event.getpwuid]

/-- The value of `tokens[1]`: the second word when there is one, otherwise
the word of the heap behind the array (the array has exactly `tokens_len`
elements, line 48). -/
def tokens_1 (env : Env) (tokens : List CStr) : Ptr :=
  match tokens[1]? with
  | some t => Ptr.str t
  | none => env.past

/-- Lines 146-171: the built-in `cd`. -/
def main_cd (env : Env) (st : State) (tokens : List CStr) (tokens_len : Nat) : Result :=
  if tokens_len > 2 then
    ⟨Outcome.reprompt, st, [Event.stderr Msg.too_many_arguments]⟩
  else
    match tokens_1 env tokens with
    | Ptr.null => main_cd_home env st Ptr.null
    | Ptr.wild => ⟨Outcome.fault, st, []⟩
    | Ptr.str s =>
      if s = ['~'] then main_cd_home env st (Ptr.str s)
      else main_chdir env st (Ptr.str s) s []

/-- Lines 175-178: the built-in `exit`. -/
def main_exit (st : State) (tokens_len : Nat) : Result :=
  ⟨Outcome.exit EXIT_SUCCESS, st, release tokens_len⟩

/-- The words of a stretch of memory up to the first NULL word. -/
def words_to_null : List Ptr → List Ptr
  | [] => []
  | Ptr.null :: _ => []
  | Ptr.str s :: rest => Ptr.str s :: words_to_null rest
  | Ptr.wild :: rest => Ptr.wild :: words_to_null rest

/-- The argument vector `execvp(tokens[0], tokens)` reads at line 205.  The
array has exactly `tokens_len` elements and no NULL behind them (line 48), so
the vector is the tokens followed by the words of the heap behind the array,
up to the first NULL among those. -/
def exec_vector (env : Env) (tokens : List CStr) : List Ptr :=
  tokens.map Ptr.str ++ words_to_null (env.past :: env.beyond)

/-- What the call of `execvp` at line 205 does.  A vector with a word that is
no address cannot be copied: when the call would otherwise have replaced the
image, it returns -1 with `errno = EFAULT` instead. -/
def execvp_result (env : Env) (tokens : List CStr) : Option (Int × Int) :=
  if Ptr.wild ∈ exec_vector env tokens then
    match env.execvp with
    | none => some (-1, EFAULT)
    | some r => some r
  else env.execvp

/-- Lines 193-218: the child after `fork`. -/
def main_child (env : Env) (st : State) (tokens : List CStr) (tokens_len : Nat) : Result :=
  if st.interrupted = 1 then
    ⟨Outcome.exit EXIT_FAILURE, { st with interrupted := 0 }, release tokens_len⟩
  else
    match execvp_result env tokens with
    | none =>
      ⟨Outcome.image_replaced, st,
        [Event.execvp (tokens.headD []) (exec_vector env tokens)]⟩
    | some (ret, e) =>
      if ret = -1 then
        ⟨Outcome.exit EXIT_FAILURE, { st with errno := e },
          [Event.execvp (tokens.headD []) (exec_vector env tokens),
            Event.stderr Msg.exec_failed] ++ release tokens_len⟩
      else
        ⟨Outcome.exit EXIT_SUCCESS, st,
          Event.execvp (tokens.headD []) (exec_vector env tokens) :: release tokens_len⟩

/-- Lines 222-244: the parent after `fork`. -/
def main_parent (env : Env) (st : State) (pid : Int) (tokens_len : Nat) : Result :=
  if st.interrupted = 1 then
    ⟨Outcome.reprompt, { st with interrupted := 0 }, release tokens_len⟩
  else
    match env.waitpid with
    | Call.error e =>
      ⟨Outcome.reprompt, { st with errno := e },
        [Event.waitpid pid, Event.stderr Msg.wait_failed] ++ release tokens_len⟩
    | Call.ok ret =>
      if ret = -1 then
        ⟨Outcome.reprompt, st,
          [Event.waitpid pid, Event.stderr Msg.wait_failed] ++ release tokens_len⟩
      else
        ⟨Outcome.reprompt, st, Event.waitpid pid :: release tokens_len⟩

/-- The value `fork` returns, and the state behind the call. -/
def fork_result (env : Env) (st : State) : Int × State :=
  match env.fork with
  | Call.error e => (-1, { st with errno := e })
  | Call.ok pid => (pid, st)

/-- Lines 183-240: an external command. -/
def main_external (env : Env) (st : State) (tokens : List CStr) (tokens_len : Nat) : Result :=
  let pid := (fork_result env st).1
  let st1 := (fork_result env st).2
  if pid = -1 then
    ⟨Outcome.exit EXIT_FAILURE, st1, [Event.fork, Event.stderr Msg.fork_failed]⟩
  else if pid = 0 then
    (main_child env (deliver env.signals_fork st1) tokens tokens_len).after [Event.fork]
  else
    (main_parent env (deliver env.signals_fork st1) pid tokens_len).after [Event.fork]

/-- The three executors the dispatcher chooses from. -/
inductive Executor where
  | cd
  | exit
  | external
deriving DecidableEq, Repr

/-- The comparisons of lines 144, 173 and 180 on `tokens[0]`. -/
def main_select (token_0 : CStr) : Executor :=
  if token_0 = ['c', 'd'] then Executor.cd
  else if token_0 = ['e', 'x', 'i', 't'] then Executor.exit
  else Executor.external

/-- The built-in `cd` followed by lines 243-244, which it falls through to
unless it stopped at a bad pointer. -/
def main_cd_then_release (env : Env) (st : State) (tokens : List CStr)
    (tokens_len : Nat) : Result :=
  match (main_cd env st tokens tokens_len).outcome with
  | Outcome.reprompt =>
    { main_cd env st tokens tokens_len with
      trace := (main_cd env st tokens tokens_len).trace ++ release tokens_len }
  | _ => main_cd env st tokens tokens_len

/-- Lines 144-244: the dispatcher.  With no token at all `tokens` is NULL and
`tokens[0]` reads through it. -/
def main_dispatch (env : Env) (st : State) (tokens : List CStr) (tokens_len : Nat) : Result :=
  match tokens with
  | [] => ⟨Outcome.fault, st, []⟩
  | token_0 :: _ =>
    match main_select token_0 with
    | Executor.cd => main_cd_then_release env st tokens tokens_len
    | Executor.exit => main_exit st tokens_len
    | Executor.external => main_external env st tokens tokens_len

/-- Lines 134-244: what is done with a line that was read. -/
def main_line (env : Env) (st : State) (input : CStr) : Result :=
  if input.head? = some '\n' then
    ⟨Outcome.reprompt, st, [Event.free Buf.input]⟩
  else
    match str_split input [' '] with
    | none => ⟨Outcome.no_fuel, st, [Event.str_split input]⟩
    | some sp =>
      (main_dispatch env st sp.tokens sp.len).after
        (Event.str_split input :: str_split_allocs sp.len)

/-- Lines 110-131: what is done when `getline` returned -1. -/
def main_read_failed (st : State) (buffer : Bool) : Result :=
  if st.interrupted = 1 ∨ st.errno = EINTR then
    ⟨Outcome.reprompt, { interrupted := 0, errno := 0 },
      (if buffer then [Event.free Buf.input] else []) ++ [Event.clearerr, Event.put_newline]⟩
  else
    ⟨Outcome.exit EXIT_FAILURE, { st with errno := 0 },
      (if buffer then [Event.free Buf.input] else []) ++ [Event.stderr Msg.read_failed]⟩

/-- The globals when `getline` has returned: the signals delivered up to then
have run the handler, and a failing read may have set `errno`. -/
def state_after_getline (env : Env) (st : State) : State :=
  match env.getline with
  | ReadResult.failure _ (some e) => { deliver env.signals_read st with errno := e }
  | _ => deliver env.signals_read st

/-- Lines 108-244: the line read and everything behind it. -/
def main_read (env : Env) (st : State) : Result :=
  match env.getline with
  | ReadResult.failure buffer _ =>
    (main_read_failed (state_after_getline env st) buffer).after
      (Event.getline :: (if buffer then [Event.alloc Buf.input] else []))
  | ReadResult.line input =>
    (main_line env (state_after_getline env st) input).after
      [Event.getline, Event.alloc Buf.input]

/-- The globals when `getcwd` has returned. -/
def state_after_getcwd (env : Env) (st : State) : State :=
  match env.getcwd with
  | Call.error e => { st with errno := e }
  | Call.ok _ => st

/-- One pass through the body of `while (1)`, lines 93-244. -/
def main_loop_body (env : Env) (st : State) : Result :=
  match env.getcwd with
  | Call.error e =>
    if e = EINTR then
      ⟨Outcome.reprompt, { st with errno := 0 }, [Event.getcwd]⟩
    else
      (main_read env (state_after_getcwd env st)).after [Event.getcwd, Event.show_prompt none]
  | Call.ok cwd =>
    (main_read env (state_after_getcwd env st)).after
      [Event.getcwd, Event.alloc Buf.cwd, Event.show_prompt (some cwd), Event.free Buf.cwd]

/-- An environment in which nothing goes wrong: no signal arrives, every call
succeeds, the process is the parent of child 1234, the home directory is
`/home/user` and the word behind the array of tokens is NULL. -/
def quiet_env (read : ReadResult) : Env where
  getcwd := Call.ok ['/']
  signals_read := []
  getline := read
  past := Ptr.null
  beyond := []
  getpwuid := Call.ok "/home/user".toList
  chdir := fun _ => none
  fork := Call.ok 1234
  signals_fork := []
  execvp := none
  waitpid := Call.ok 1234

/-! ## Counting allocations and releases -/

/-- How often `release` frees a block. -/
def release_count (len : Nat) : Buf → Nat
  | Buf.cwd => 0
  | Buf.input => 1
  | Buf.word i => if i < len then 1 else 0
  | Buf.tokens => 1

/-- How often `str_split` allocates a block. -/
def split_count (len : Nat) : Buf → Nat
  | Buf.cwd => 0
  | Buf.input => 0
  | Buf.word i => if i < len then 1 else 0
  | Buf.tokens => if 0 < len then 1 else 0

/-- The trace frees what `release` frees and allocates nothing. -/
def releases (len : Nat) (tr : List Event) : Prop :=
  ∀ b, tr.count (Event.free b) = release_count len b ∧ tr.count (Event.alloc b) = 0

/-! ## Facts about `strtok` -/

theorem takeWhile_run {p : Char → Bool} (w rest : CStr) (sep : Char)
    (hw : ∀ x ∈ w, p x = true) (hsep : p sep = false) :
    (w ++ sep :: rest).takeWhile p = w := by
  induction w with
  | nil => simp [List.takeWhile_cons, hsep]
  | cons c w ih =>
    have hc : p c = true := hw c (by simp)
    have hw2 : ∀ x ∈ w, p x = true := fun x hx => hw x (by simp [hx])
    simp only [List.cons_append, List.takeWhile_cons, hc, if_true, ih hw2]

theorem dropWhile_run {p : Char → Bool} (w rest : CStr) (sep : Char)
    (hw : ∀ x ∈ w, p x = true) (hsep : p sep = false) :
    (w ++ sep :: rest).dropWhile p = sep :: rest := by
  induction w with
  | nil => simp [List.dropWhile_cons, hsep]
  | cons c w ih =>
    have hc : p c = true := hw c (by simp)
    have hw2 : ∀ x ∈ w, p x = true := fun x hx => hw x (by simp [hx])
    simp only [List.cons_append, List.dropWhile_cons, hc, if_true, ih hw2]

theorem not_delim_of_not_mem (w : CStr) (hs : ' ' ∉ w) :
    ∀ x ∈ w, (fun c => !decide (c ∈ [' '])) x = true := by
  intro x hx
  have : x ≠ ' ' := fun h => hs (h ▸ hx)
  simp [this]

theorem dropWhile_spaces (k : Nat) (t : CStr) :
    (List.replicate k ' ' ++ t).dropWhile (fun c => decide (c ∈ [' '])) =
      t.dropWhile (fun c => decide (c ∈ [' '])) := by
  induction k with
  | zero => simp
  | succ k ih =>
    rw [List.replicate_succ, List.cons_append, List.dropWhile_cons]
    simp only [List.mem_singleton, decide_True, if_true]
    simp only [List.mem_singleton] at ih
    exact ih

theorem takeWhile_word (w rest : CStr) (hs : ' ' ∉ w) :
    (w ++ ' ' :: rest).takeWhile (fun c => !decide (c ∈ [' '])) = w :=
  takeWhile_run w rest ' ' (not_delim_of_not_mem w hs) (by simp)

theorem dropWhile_word (w rest : CStr) (hs : ' ' ∉ w) :
    (w ++ ' ' :: rest).dropWhile (fun c => !decide (c ∈ [' '])) = ' ' :: rest :=
  dropWhile_run w rest ' ' (not_delim_of_not_mem w hs) (by simp)

theorem takeWhile_word_end (w : CStr) (hs : ' ' ∉ w) :
    w.takeWhile (fun c => !decide (c ∈ [' '])) = w :=
  List.takeWhile_eq_self_iff.mpr (not_delim_of_not_mem w hs)

theorem dropWhile_word_end (w : CStr) (hs : ' ' ∉ w) :
    w.dropWhile (fun c => !decide (c ∈ [' '])) = [] :=
  List.dropWhile_eq_nil_iff.mpr (not_delim_of_not_mem w hs)

/-- A string of spaces holds no token. -/
theorem strtok_spaces (k : Nat) : strtok (List.replicate k ' ') [' '] = none := by
  have h := dropWhile_spaces k []
  simp only [List.append_nil, List.dropWhile_nil] at h
  simp [strtok, h]

/-- A word followed by a space is cut off as the token; the saved position is
behind that space. -/
theorem strtok_word_more (k : Nat) (w rest : CStr) (hw : w ≠ []) (hs : ' ' ∉ w) :
    strtok (List.replicate k ' ' ++ (w ++ ' ' :: rest)) [' '] = some (w, rest) := by
  obtain ⟨c, w', rfl⟩ := List.exists_cons_of_ne_nil hw
  have hc : c ≠ ' ' := fun h => hs (by simp [h])
  have h1 : (List.replicate k ' ' ++ (c :: w' ++ ' ' :: rest)).dropWhile
      (fun c => decide (c ∈ [' '])) = c :: w' ++ ' ' :: rest := by
    rw [dropWhile_spaces]
    simp [List.dropWhile_cons, hc]
  have h2 := takeWhile_word (c :: w') rest hs
  have h3 := dropWhile_word (c :: w') rest hs
  simp only [strtok, h1]
  simp only [List.cons_append] at h2 h3 ⊢
  simp only [h2, h3, List.drop_succ_cons, List.drop_zero]

/-- A word that ends the string is the token; the saved position is the end. -/
theorem strtok_word_end (k : Nat) (w : CStr) (hw : w ≠ []) (hs : ' ' ∉ w) :
    strtok (List.replicate k ' ' ++ w) [' '] = some (w, []) := by
  obtain ⟨c, w', rfl⟩ := List.exists_cons_of_ne_nil hw
  have hc : c ≠ ' ' := fun h => hs (by simp [h])
  have h1 : (List.replicate k ' ' ++ (c :: w')).dropWhile
      (fun c => decide (c ∈ [' '])) = c :: w' := by
    rw [dropWhile_spaces]
    simp [List.dropWhile_cons, hc]
  have h2 := takeWhile_word_end (c :: w') hs
  have h3 := dropWhile_word_end (c :: w') hs
  simp only [strtok, h1]
  simp only [h2, h3, List.drop_nil]

/-- Every string is a run of spaces, or a run of spaces and a word that either
ends the string or is followed by a space. -/
theorem space_decomposition (s : CStr) :
    (∃ k, s = List.replicate k ' ') ∨
    ∃ k w, w ≠ [] ∧ ' ' ∉ w ∧
      (s = List.replicate k ' ' ++ w ∨ ∃ rest, s = List.replicate k ' ' ++ (w ++ ' ' :: rest)) := by
  induction s with
  | nil => exact Or.inl ⟨0, rfl⟩
  | cons c s ih =>
    by_cases hc : c = ' '
    · subst hc
      rcases ih with ⟨k, rfl⟩ | ⟨k, w, hw, hs, rfl | ⟨rest, rfl⟩⟩
      · exact Or.inl ⟨k + 1, rfl⟩
      · exact Or.inr ⟨k + 1, w, hw, hs, Or.inl rfl⟩
      · exact Or.inr ⟨k + 1, w, hw, hs, Or.inr ⟨rest, rfl⟩⟩
    · right
      rcases ih with ⟨k, rfl⟩ | ⟨k, w, hw, hs, rfl | ⟨rest, rfl⟩⟩
      · cases k with
        | zero => exact ⟨0, [c], by simp, by simpa using Ne.symm hc, Or.inl rfl⟩
        | succ k =>
          exact ⟨0, [c], by simp, by simpa using Ne.symm hc,
            Or.inr ⟨List.replicate k ' ', rfl⟩⟩
      · cases k with
        | zero =>
          refine ⟨0, c :: w, by simp, ?_, Or.inl rfl⟩
          simp only [List.mem_cons, not_or]
          exact ⟨Ne.symm hc, hs⟩
        | succ k =>
          exact ⟨0, [c], by simp, by simpa using Ne.symm hc,
            Or.inr ⟨List.replicate k ' ' ++ w, rfl⟩⟩
      · cases k with
        | zero =>
          refine ⟨0, c :: w, by simp, ?_, Or.inr ⟨rest, rfl⟩⟩
          simp only [List.mem_cons, not_or]
          exact ⟨Ne.symm hc, hs⟩
        | succ k =>
          exact ⟨0, [c], by simp, by simpa using Ne.symm hc,
            Or.inr ⟨List.replicate k ' ' ++ (w ++ ' ' :: rest), rfl⟩⟩

/-- A token is never empty, and the saved position is strictly further on. -/
theorem strtok_some (s tok saved : CStr) (h : strtok s [' '] = some (tok, saved)) :
    tok ≠ [] ∧ ' ' ∉ tok ∧ saved.length < s.length := by
  rcases space_decomposition s with ⟨k, rfl⟩ | ⟨k, w, hw, hs, rfl | ⟨rest, rfl⟩⟩
  · rw [strtok_spaces] at h
    cases h
  · rw [strtok_word_end k w hw hs] at h
    have hlen : 0 < w.length := List.length_pos.mpr hw
    simp only [Option.some.injEq, Prod.mk.injEq] at h
    obtain ⟨h1, h2⟩ := h
    subst h1 h2
    refine ⟨hw, hs, ?_⟩
    simp only [List.length_append, List.length_nil]
    omega
  · rw [strtok_word_more k w rest hw hs] at h
    simp only [Option.some.injEq, Prod.mk.injEq] at h
    obtain ⟨h1, h2⟩ := h
    subst h1 h2
    refine ⟨hw, hs, ?_⟩
    simp only [List.length_append, List.length_cons]
    omega

/-! ## The tokens are the space-delimited words -/

theorem isSpace_of_not_mem (w : CStr) (hs : ' ' ∉ w) : ∀ x ∈ w, ¬ isSpace x = true := by
  intro x hx
  have : x ≠ ' ' := fun h => hs (h ▸ hx)
  simp [isSpace, this]

theorem space_words_nil : space_words [] = [] := by
  simp [space_words, words_by]

theorem space_words_spaces (k : Nat) (t : CStr) :
    space_words (List.replicate k ' ' ++ t) = space_words t := by
  induction k with
  | zero => simp
  | succ k ih =>
    have h : isSpace ' ' = true := by decide
    unfold space_words words_by at ih ⊢
    rw [List.replicate_succ, List.cons_append, List.splitOnP_cons, if_pos h, List.filter_cons]
    simpa using ih

theorem space_words_word_more (w rest : CStr) (hw : w ≠ []) (hs : ' ' ∉ w) :
    space_words (w ++ ' ' :: rest) = w :: space_words rest := by
  unfold space_words words_by
  rw [List.splitOnP_first isSpace w (isSpace_of_not_mem w hs) ' ' (by decide) rest,
    List.filter_cons]
  simp [hw]

theorem space_words_word_end (w : CStr) (hw : w ≠ []) (hs : ' ' ∉ w) :
    space_words w = [w] := by
  unfold space_words words_by
  rw [List.splitOnP_eq_single isSpace w (isSpace_of_not_mem w hs)]
  simp [hw]

/-- Cutting with `strtok` walks through the space-delimited words one by one. -/
theorem space_words_strtok (s : CStr) :
    space_words s =
      match strtok s [' '] with
      | none => []
      | some (tok, saved) => tok :: space_words saved := by
  rcases space_decomposition s with ⟨k, rfl⟩ | ⟨k, w, hw, hs, rfl | ⟨rest, rfl⟩⟩
  · rw [strtok_spaces]
    have h := space_words_spaces k []
    rw [List.append_nil] at h
    rw [h, space_words_nil]
  · rw [strtok_word_end k w hw hs, space_words_spaces, space_words_word_end w hw hs]
    simp only [space_words_nil]
  · rw [strtok_word_more k w rest hw hs, space_words_spaces,
      space_words_word_more w rest hw hs]

/-- With more fuel than characters the loop of `str_split` ends, and it has
appended the words of the rest of the string, each with its final newline
removed. -/
theorem str_split_loop_words (fuel : Nat) (s : CStr) (acc : List CStr) (n : Nat)
    (h : s.length < fuel) :
    str_split_loop fuel (strtok s [' ']) acc n =
      some ⟨acc ++ (space_words s).map strip_newline, n + (space_words s).length⟩ := by
  induction fuel generalizing s acc n with
  | zero => omega
  | succ fuel ih =>
    rw [space_words_strtok s]
    cases hst : strtok s [' '] with
    | none => simp [str_split_loop]
    | some ts =>
      obtain ⟨tok, saved⟩ := ts
      have hlt := (strtok_some s tok saved hst).2.2
      simp only [str_split_loop]
      rw [ih saved _ _ (by omega)]
      simp only [List.map_cons, List.length_cons, List.append_assoc, List.singleton_append,
        Option.some.injEq, Split.mk.injEq, true_and]
      omega

/-- The function `str_split` always returns: its tokens are the space-delimited
words of the string, each with a final newline removed, and `len` is their
number. -/
theorem str_split_eq_words (line : CStr) :
    str_split line [' '] =
      some ⟨(space_words line).map strip_newline, (space_words line).length⟩ := by
  unfold str_split
  rw [str_split_loop_words (line.length + 1) line [] 0 (by omega)]
  simp

theorem strip_newline_of_not_mem (w : CStr) (h : '\n' ∉ w) : strip_newline w = w := by
  unfold strip_newline
  split
  · next hl => exact absurd (List.mem_of_getLast?_eq_some hl) h
  · rfl

theorem strip_newline_concat (w : CStr) : strip_newline (w ++ ['\n']) = w := by
  simp [strip_newline]

theorem space_words_command_line (lead : Nat) (pre : List (CStr × Nat)) (last : CStr)
    (h : ∀ w ∈ command_words pre last, w ≠ [] ∧ ' ' ∉ w ∧ '\n' ∉ w) :
    space_words (command_line lead pre last) = pre.map (fun wg => wg.1) ++ [last ++ ['\n']] := by
  induction pre generalizing lead with
  | nil =>
    have hl := h last (by simp [command_words])
    have hs : ' ' ∉ last ++ ['\n'] := by
      simp only [List.mem_append, List.mem_singleton, not_or]
      exact ⟨hl.2.1, by decide⟩
    simp only [command_line, List.flatMap_nil, List.nil_append, List.map_nil]
    rw [space_words_spaces, space_words_word_end _ (by simp) hs]
  | cons wg pre ih =>
    obtain ⟨w, g⟩ := wg
    have hw := h w (by simp [command_words])
    have hrest : ∀ v ∈ command_words pre last, v ≠ [] ∧ ' ' ∉ v ∧ '\n' ∉ v := by
      intro v hv
      apply h v
      simp only [command_words, List.map_cons, List.cons_append, List.mem_cons] at hv ⊢
      exact Or.inr hv
    have hform : command_line lead ((w, g) :: pre) last =
        List.replicate lead ' ' ++ (w ++ ' ' :: command_line g pre last) := by
      simp [command_line, List.replicate_succ]
    rw [hform, space_words_spaces, space_words_word_more w _ hw.1 hw.2.1, ih g hrest]
    simp

theorem space_words_ne_nil (s : CStr) : ∀ w ∈ space_words s, w ≠ [] := by
  intro w hw
  simp only [space_words, words_by, List.mem_filter] at hw
  intro h
  simp [h] at hw

/-- Words of a string without a newline are left as they are by lines 40-44. -/
theorem map_strip_space_words (n : Nat) (s : CStr) (hn : s.length ≤ n) (h : '\n' ∉ s) :
    (space_words s).map strip_newline = space_words s := by
  induction n generalizing s with
  | zero =>
    have : s = [] := List.length_eq_zero.mp (by omega)
    subst this
    simp [space_words_nil]
  | succ n ih =>
    rcases space_decomposition s with ⟨k, rfl⟩ | ⟨k, w, hw, hs, rfl | ⟨rest, rfl⟩⟩
    · have h0 := space_words_spaces k []
      rw [List.append_nil] at h0
      rw [h0, space_words_nil]
      rfl
    · have hwn : '\n' ∉ w := fun hm => h (List.mem_append_right _ hm)
      rw [space_words_spaces, space_words_word_end w hw hs]
      simp [strip_newline_of_not_mem w hwn]
    · have hwn : '\n' ∉ w := fun hm =>
        h (List.mem_append_right _ (List.mem_append_left _ hm))
      have hrn : '\n' ∉ rest := fun hm =>
        h (List.mem_append_right _ (List.mem_append_right _ (List.mem_cons_of_mem _ hm)))
      have hlen : rest.length ≤ n := by
        simp only [List.length_append, List.length_cons, List.length_replicate] at hn
        omega
      rw [space_words_spaces, space_words_word_more w rest hw hs]
      simp [strip_newline_of_not_mem w hwn, ih rest hlen hrn]

/-- A newline right behind the last word is removed by lines 40-44, and the
tokens are the words of the line without it. -/
theorem map_strip_space_words_newline (n : Nat) (body : CStr) (hn : body.length ≤ n)
    (h : '\n' ∉ body) (hne : body ≠ []) (hlast : body.getLast? ≠ some ' ') :
    (space_words (body ++ ['\n'])).map strip_newline = space_words body := by
  induction n generalizing body with
  | zero => exact absurd (List.length_eq_zero.mp (by omega)) hne
  | succ n ih =>
    rcases space_decomposition body with ⟨k, rfl⟩ | ⟨k, w, hw, hs, rfl | ⟨rest, rfl⟩⟩
    · exfalso
      cases k with
      | zero => exact hne rfl
      | succ k =>
        apply hlast
        rw [List.replicate_succ', List.getLast?_concat]
    · have hwn : '\n' ∉ w := fun hm => h (List.mem_append_right _ hm)
      have hs2 : ' ' ∉ w ++ ['\n'] := by
        simp only [List.mem_append, List.mem_singleton, not_or]
        exact ⟨hs, by decide⟩
      rw [List.append_assoc, space_words_spaces, space_words_spaces,
        space_words_word_end w hw hs, space_words_word_end _ (by simp) hs2]
      simp [strip_newline_concat]
    · have hwn : '\n' ∉ w := fun hm =>
        h (List.mem_append_right _ (List.mem_append_left _ hm))
      have hrn : '\n' ∉ rest := fun hm =>
        h (List.mem_append_right _ (List.mem_append_right _ (List.mem_cons_of_mem _ hm)))
      have hlen : rest.length ≤ n := by
        simp only [List.length_append, List.length_cons, List.length_replicate] at hn
        omega
      have hrne : rest ≠ [] := by
        intro hr
        subst hr
        apply hlast
        rw [← List.append_assoc, List.getLast?_concat]
      have hrlast : rest.getLast? ≠ some ' ' := by
        intro hr
        apply hlast
        obtain ⟨ys, rfl⟩ := List.getLast?_eq_some_iff.mp hr
        have : List.replicate k ' ' ++ (w ++ ' ' :: (ys ++ [' '])) =
            (List.replicate k ' ' ++ (w ++ ' ' :: ys)) ++ [' '] := by simp
        rw [this, List.getLast?_concat]
      have hform : List.replicate k ' ' ++ (w ++ ' ' :: rest) ++ ['\n'] =
          List.replicate k ' ' ++ (w ++ ' ' :: (rest ++ ['\n'])) := by simp
      rw [hform, space_words_spaces, space_words_spaces,
        space_words_word_more w rest hw hs, space_words_word_more w _ hw hs]
      simp [strip_newline_of_not_mem w hwn, ih rest hlen hrn hrne hrlast]

/-- A line that holds a character other than the space, a line that ends in a
newline for one, yields at least one token. -/
theorem str_split_tokens_ne_nil (line : CStr) (c : Char) (hc : c ∈ line) (hsp : c ≠ ' ') :
    ∃ sp, str_split line [' '] = some sp ∧ sp.tokens ≠ [] ∧ 0 < sp.len := by
  have hw : space_words line ≠ [] := by
    rcases space_decomposition line with ⟨k, rfl⟩ | ⟨k, w, hw, hs, rfl | ⟨rest, rfl⟩⟩
    · exact absurd (List.eq_of_mem_replicate hc) hsp
    · rw [space_words_spaces, space_words_word_end w hw hs]
      simp
    · rw [space_words_spaces, space_words_word_more w rest hw hs]
      simp
  refine ⟨_, str_split_eq_words line, ?_, ?_⟩
  · simpa using hw
  · exact List.length_pos.mpr hw

/-! ## The claims about the tokenizer -/

/-- C1, as stated, fails: on the line `a<TAB>b<NEWLINE>` the function
`str_split` returns the single token `a<TAB>b`, while the line has two
whitespace-delimited words; and on the line `ls <NEWLINE>` it returns two
tokens, the second one empty, while the line has one word. -/
theorem str_split_tab_counterexample :
    str_split "a\tb\n".toList [' '] = some ⟨["a\tb".toList], 1⟩ ∧
      whitespace_words "a\tb\n".toList = ["a".toList, "b".toList] ∧
      str_split "ls \n".toList [' '] = some ⟨["ls".toList, []], 2⟩ ∧
      whitespace_words "ls \n".toList = ["ls".toList] := by
  decide

/-- C1, amended: for a line that holds no newline except possibly a final one
that directly follows a character other than the space, `str_split(line, " ")`
returns, its tokens are exactly the space-delimited words of the line without
the final newline, `len` is their number, and no token is empty. -/
theorem str_split_space_words (body line : CStr) (hnl : '\n' ∉ body)
    (hline : line = body ∨
      (line = body ++ ['\n'] ∧ body ≠ [] ∧ body.getLast? ≠ some ' ')) :
    ∃ sp, str_split line [' '] = some sp ∧ sp.tokens = space_words body ∧
      sp.len = (space_words body).length ∧ ∀ t ∈ sp.tokens, t ≠ [] := by
  have hmap : (space_words line).map strip_newline = space_words body := by
    rcases hline with rfl | ⟨rfl, hne, hlast⟩
    · exact map_strip_space_words _ _ (Nat.le_refl _) hnl
    · exact map_strip_space_words_newline _ _ (Nat.le_refl _) hnl hne hlast
  have hlen : (space_words line).length = (space_words body).length := by
    rw [← hmap, List.length_map]
  refine ⟨⟨space_words body, (space_words body).length⟩, ?_, rfl, rfl, ?_⟩
  · rw [str_split_eq_words, hmap, hlen]
  · exact space_words_ne_nil body

/-- The amended C1 at the line `ls<TAB>-l  /tmp<NEWLINE>`: two tokens, the tab
staying inside the first. -/
theorem str_split_space_words_witness :
    ∃ sp, str_split "ls\t-l  /tmp\n".toList [' '] = some sp ∧
      sp.tokens = space_words "ls\t-l  /tmp".toList ∧
      sp.len = (space_words "ls\t-l  /tmp".toList).length ∧ ∀ t ∈ sp.tokens, t ≠ [] :=
  str_split_space_words "ls\t-l  /tmp".toList "ls\t-l  /tmp\n".toList (by decide)
    (Or.inr ⟨by decide, by decide, by decide⟩)

/-- C10: on a line made of optional leading spaces, `n >= 1` words separated
by runs of one or more spaces, and a newline right behind the last word (each
word non-empty, without space and without newline), `str_split(line, " ")`
returns, sets `len` to `n` and yields exactly the words, in order and
unchanged. -/
theorem str_split_command_line (lead : Nat) (pre : List (CStr × Nat)) (last : CStr)
    (h : ∀ w ∈ command_words pre last, w ≠ [] ∧ ' ' ∉ w ∧ '\n' ∉ w) :
    str_split (command_line lead pre last) [' '] =
      some ⟨command_words pre last, pre.length + 1⟩ := by
  have hpre : (pre.map (fun wg => wg.1)).map strip_newline = pre.map (fun wg => wg.1) := by
    rw [List.map_map]
    apply List.map_congr_left
    intro wg hwg
    have hm : wg.1 ∈ command_words pre last := by
      simp only [command_words, List.mem_append, List.mem_map]
      exact Or.inl ⟨wg, hwg, rfl⟩
    exact strip_newline_of_not_mem wg.1 (h wg.1 hm).2.2
  rw [str_split_eq_words, space_words_command_line lead pre last h, List.map_append, hpre]
  simp [command_words, strip_newline_concat]

/-- C10 at the line `  ls  -l /tmp<NEWLINE>`. -/
theorem str_split_command_line_witness :
    command_line 2 [("ls".toList, 1), ("-l".toList, 0)] "/tmp".toList =
        "  ls  -l /tmp\n".toList ∧
      str_split "  ls  -l /tmp\n".toList [' '] =
        some ⟨["ls".toList, "-l".toList, "/tmp".toList], 3⟩ :=
  ⟨by decide,
    str_split_command_line 2 [("ls".toList, 1), ("-l".toList, 0)] "/tmp".toList (by decide)⟩

/-! ## The claims about the loop -/

/-- C2, as stated, fails: the line made of one space and the newline holds
only whitespace, yet the pass through the loop calls `str_split` on it, gets
one empty token, forks and waits for the child. -/
theorem blank_line_counterexample :
    (∀ c ∈ " \n".toList, isBlank c = true) ∧
      str_split " \n".toList [' '] = some ⟨[[]], 1⟩ ∧
      Event.str_split " \n".toList ∈
        (main_loop_body (quiet_env (ReadResult.line " \n".toList)) ⟨0, 0⟩).trace ∧
      Event.fork ∈ (main_loop_body (quiet_env (ReadResult.line " \n".toList)) ⟨0, 0⟩).trace := by
  decide

/-- C2, amended: for every line read whose first character is the newline
(the line the user gets by pressing enter alone), the pass through the loop
goes back to prompting without calling `str_split` and without reaching the
dispatcher: no account lookup, no change of directory, no exit, no fork, no
`execvp`, no wait. -/
theorem newline_line_reprompts (env : Env) (st : State) (input : CStr)
    (hread : env.getline = ReadResult.line input) (hnl : input.head? = some '\n') :
    (main_loop_body env st).outcome = Outcome.reprompt ∧
      (∀ s, Event.str_split s ∉ (main_loop_body env st).trace) ∧
      Event.getpwuid ∉ (main_loop_body env st).trace ∧
      (∀ t, Event.chdir t ∉ (main_loop_body env st).trace) ∧
      Event.fork ∉ (main_loop_body env st).trace ∧
      (∀ f a, Event.execvp f a ∉ (main_loop_body env st).trace) ∧
      (∀ q, Event.waitpid q ∉ (main_loop_body env st).trace) := by
  unfold main_loop_body
  cases hcwd : env.getcwd with
  | error e =>
    by_cases he : e = EINTR
    · simp [he]
    · simp [he, main_read, hread, main_line, hnl, Result.after]
  | ok cwd => simp [main_read, hread, main_line, hnl, Result.after]

/-- The amended C2 at the line that is a newline alone. -/
theorem newline_line_reprompts_witness :
    (main_loop_body (quiet_env (ReadResult.line ['\n'])) ⟨0, 0⟩).outcome = Outcome.reprompt ∧
      (∀ s, Event.str_split s ∉
        (main_loop_body (quiet_env (ReadResult.line ['\n'])) ⟨0, 0⟩).trace) ∧
      Event.getpwuid ∉ (main_loop_body (quiet_env (ReadResult.line ['\n'])) ⟨0, 0⟩).trace ∧
      (∀ t, Event.chdir t ∉ (main_loop_body (quiet_env (ReadResult.line ['\n'])) ⟨0, 0⟩).trace) ∧
      Event.fork ∉ (main_loop_body (quiet_env (ReadResult.line ['\n'])) ⟨0, 0⟩).trace ∧
      (∀ f a, Event.execvp f a ∉
        (main_loop_body (quiet_env (ReadResult.line ['\n'])) ⟨0, 0⟩).trace) ∧
      (∀ q, Event.waitpid q ∉ (main_loop_body (quiet_env (ReadResult.line ['\n'])) ⟨0, 0⟩).trace) :=
  newline_line_reprompts (quiet_env (ReadResult.line ['\n'])) ⟨0, 0⟩ ['\n'] rfl rfl

/-- C3: when the line read fails, the pass goes back to prompting with the
flag cleared if the flag is 1 or `errno` is `EINTR` at the check of line 112,
and otherwise the process exits with `EXIT_FAILURE`; so the failed read ends
the shell if and only if neither the flag nor `errno` reports an interruption. -/
theorem read_failure_exit_iff (env : Env) (st : State) (buffer : Bool) (err : Option Int)
    (hcwd : env.getcwd ≠ Call.error EINTR)
    (hread : env.getline = ReadResult.failure buffer err) :
    (((state_after_getline env (state_after_getcwd env st)).interrupted = 1 ∨
        (state_after_getline env (state_after_getcwd env st)).errno = EINTR) →
      (main_loop_body env st).outcome = Outcome.reprompt ∧
        (main_loop_body env st).state.interrupted = 0) ∧
    (¬ ((state_after_getline env (state_after_getcwd env st)).interrupted = 1 ∨
        (state_after_getline env (state_after_getcwd env st)).errno = EINTR) →
      (main_loop_body env st).outcome = Outcome.exit EXIT_FAILURE) ∧
    ((∃ status, (main_loop_body env st).outcome = Outcome.exit status) ↔
      ¬ ((state_after_getline env (state_after_getcwd env st)).interrupted = 1 ∨
        (state_after_getline env (state_after_getcwd env st)).errno = EINTR)) := by
  have hbody : main_loop_body env st =
      ((main_read_failed (state_after_getline env (state_after_getcwd env st)) buffer).after
        (Event.getline :: (if buffer then [Event.alloc Buf.input] else []))).after
        (match env.getcwd with
          | Call.error _ => [Event.getcwd, Event.show_prompt none]
          | Call.ok cwd =>
            [Event.getcwd, Event.alloc Buf.cwd, Event.show_prompt (some cwd),
              Event.free Buf.cwd]) := by
    unfold main_loop_body
    cases hg : env.getcwd with
    | error e =>
      have he : e ≠ EINTR := fun h => hcwd (by rw [hg, h])
      simp only [he, if_false, main_read, hread]
    | ok cwd => simp only [main_read, hread]
  rw [hbody]
  by_cases hc : (state_after_getline env (state_after_getcwd env st)).interrupted = 1 ∨
      (state_after_getline env (state_after_getcwd env st)).errno = EINTR
  · simp [main_read_failed, hc, Result.after]
  · simp [main_read_failed, hc, Result.after]

/-- C3 at a read that fails at end of input with the flag clear (the shell
exits) and at a read interrupted by `SIGINT` (the shell prompts again). -/
theorem read_failure_exit_iff_witness :
    (main_loop_body (quiet_env (ReadResult.failure true none)) ⟨0, 0⟩).outcome =
        Outcome.exit EXIT_FAILURE ∧
      (main_loop_body { quiet_env (ReadResult.failure true (some EINTR)) with
          signals_read := [SIGINT] } ⟨0, 0⟩).outcome = Outcome.reprompt ∧
      (main_loop_body { quiet_env (ReadResult.failure true (some EINTR)) with
          signals_read := [SIGINT] } ⟨0, 0⟩).state.interrupted = 0 :=
  ⟨(read_failure_exit_iff (quiet_env (ReadResult.failure true none)) ⟨0, 0⟩ true none
      (by decide) rfl).2.1 (by decide),
    (read_failure_exit_iff { quiet_env (ReadResult.failure true (some EINTR)) with
      signals_read := [SIGINT] } ⟨0, 0⟩ true (some EINTR) (by decide) rfl).1 (by decide)⟩

/-- C4, as stated, fails: the handler is installed for `SIGQUIT`, and run with
`SIGQUIT` on a clear flag it leaves the flag clear. -/
theorem handle_sigquit_counterexample :
    SIGQUIT ∈ installed_signals ∧ (handle_sigint SIGQUIT ⟨0, 0⟩).interrupted = 0 ∧
      (handle_sigint SIGQUIT ⟨0, 0⟩).interrupted ≠ 1 := by
  decide

/-- C4, amended: run with `SIGINT` the handler leaves the flag set to 1
whatever it was; run with `SIGQUIT` it changes nothing; and for each of the
two installed signals it has no effect on the rest of the state. -/
theorem handle_sigint_effect (st : State) :
    (handle_sigint SIGINT st).interrupted = 1 ∧
      handle_sigint SIGQUIT st = st ∧
      ∀ sig ∈ installed_signals, (handle_sigint sig st).errno = st.errno := by
  refine ⟨by simp [handle_sigint], by simp [handle_sigint, SIGINT, SIGQUIT], ?_⟩
  intro sig _
  unfold handle_sigint
  split <;> rfl

theorem waitpid_not_mem_release (q : Int) (len : Nat) : Event.waitpid q ∉ release len := by
  simp [release, free_char_array]

theorem execvp_not_mem_release (f : CStr) (a : List Ptr) (len : Nat) :
    Event.execvp f a ∉ release len := by
  simp [release, free_char_array]

theorem fork_not_mem_release (len : Nat) : Event.fork ∉ release len := by
  simp [release, free_char_array]

theorem count_waitpid_release (q : Int) (len : Nat) :
    (release len).count (Event.waitpid q) = 0 :=
  List.count_eq_zero.mpr (waitpid_not_mem_release q len)

/-- After a successful fork the flag, as it stands at the check, gates both
sides.  In the child (`fork` returned 0) a set flag means exit with
`EXIT_FAILURE` and no `execvp`; a clear flag means that `execvp` is called on
`tokens[0]`, with the vector that starts at the array of tokens.  In the
parent a set flag means no `waitpid`, the flag cleared and back to prompting;
a clear flag means exactly one `waitpid`, on the process identifier `fork`
returned. -/
theorem flag_gates_both_sides (env : Env) (st : State) (token_0 : CStr) (rest : List CStr)
    (len : Nat) (pid : Int) (hfork : env.fork = Call.ok pid) (hpid : pid ≠ -1) :
    (pid = 0 → (deliver env.signals_fork st).interrupted = 1 →
      (main_external env st (token_0 :: rest) len).outcome = Outcome.exit EXIT_FAILURE ∧
        ∀ f a, Event.execvp f a ∉ (main_external env st (token_0 :: rest) len).trace) ∧
    (pid = 0 → (deliver env.signals_fork st).interrupted ≠ 1 →
      Event.execvp token_0 (exec_vector env (token_0 :: rest)) ∈
        (main_external env st (token_0 :: rest) len).trace) ∧
    (pid ≠ 0 → (deliver env.signals_fork st).interrupted = 1 →
      (main_external env st (token_0 :: rest) len).outcome = Outcome.reprompt ∧
        (main_external env st (token_0 :: rest) len).state.interrupted = 0 ∧
        ∀ q, Event.waitpid q ∉ (main_external env st (token_0 :: rest) len).trace) ∧
    (pid ≠ 0 → (deliver env.signals_fork st).interrupted ≠ 1 →
      (main_external env st (token_0 :: rest) len).trace.count (Event.waitpid pid) = 1 ∧
        ∀ q, Event.waitpid q ∈ (main_external env st (token_0 :: rest) len).trace → q = pid) := by
  have hfr : fork_result env st = (pid, st) := by simp [fork_result, hfork]
  refine ⟨?_, ?_, ?_, ?_⟩
  · intro h0 hflag
    subst h0
    simp [main_external, hfr, main_child, hflag, Result.after, execvp_not_mem_release]
  · intro h0 hflag
    subst h0
    simp only [main_external, hfr, main_child, hflag, Result.after]
    cases execvp_result env (token_0 :: rest) with
    | none => simp
    | some re =>
      obtain ⟨ret, e⟩ := re
      by_cases hret : ret = -1 <;> simp [hret]
  · intro h0 hflag
    simp [main_external, hfr, hpid, h0, main_parent, hflag, Result.after,
      waitpid_not_mem_release]
  · intro h0 hflag
    simp only [main_external, hfr, hpid, h0, main_parent, hflag, Result.after, if_false]
    cases env.waitpid with
    | error e =>
      simp [List.count_cons, count_waitpid_release, waitpid_not_mem_release]
    | ok ret =>
      by_cases hret : ret = -1 <;>
        simp [hret, List.count_cons, count_waitpid_release, waitpid_not_mem_release]

/-- The vector `execvp` reads is the Token Sequence exactly when the word
behind the array is NULL. -/
theorem exec_vector_eq_tokens_iff (env : Env) (tokens : List CStr) :
    exec_vector env tokens = tokens.map Ptr.str ↔ env.past = Ptr.null := by
  unfold exec_vector
  constructor
  · intro h
    have h2 : words_to_null (env.past :: env.beyond) = [] := by
      have := congrArg List.length h
      simp only [List.length_append, List.length_map] at this
      exact List.length_eq_zero.mp (by omega)
    cases hp : env.past with
    | null => rfl
    | str s => simp [hp, words_to_null] at h2
    | wild => simp [hp, words_to_null] at h2
  · intro h
    simp [h, words_to_null]

/-- C5 fails on the code: in the child of the line `echo a b`, with the flag
clear, `execvp` is not called with the Token Sequence as its argument vector.
The array of tokens has three elements and no NULL behind them, so the vector
runs on into the heap: when the word behind the array is the address of the
string `/tmp`, the vector is `echo a b /tmp`; when it is no address at all,
the call fails and the child exits with `EXIT_FAILURE`, although the program
could have been run. -/
theorem child_execvp_reads_past_array :
    str_split "echo a b\n".toList [' '] =
        some ⟨["echo".toList, "a".toList, "b".toList], 3⟩ ∧
      (deliver [] ⟨0, 0⟩).interrupted = 0 ∧
      (main_external
          { quiet_env (ReadResult.line "echo a b\n".toList) with
            fork := Call.ok 0, past := Ptr.str "/tmp".toList }
          ⟨0, 0⟩ ["echo".toList, "a".toList, "b".toList] 3).trace =
        [Event.fork,
          Event.execvp "echo".toList
            [Ptr.str "echo".toList, Ptr.str "a".toList, Ptr.str "b".toList,
              Ptr.str "/tmp".toList]] ∧
      Event.execvp "echo".toList
          [Ptr.str "echo".toList, Ptr.str "a".toList, Ptr.str "b".toList] ∉
        (main_external
          { quiet_env (ReadResult.line "echo a b\n".toList) with
            fork := Call.ok 0, past := Ptr.str "/tmp".toList }
          ⟨0, 0⟩ ["echo".toList, "a".toList, "b".toList] 3).trace ∧
      (quiet_env (ReadResult.line "echo a b\n".toList)).execvp = none ∧
      (main_loop_body
          { quiet_env (ReadResult.line "echo a b\n".toList) with
            fork := Call.ok 0, past := Ptr.wild }
          ⟨0, 0⟩).outcome = Outcome.exit EXIT_FAILURE ∧
      Event.stderr Msg.exec_failed ∈
        (main_loop_body
          { quiet_env (ReadResult.line "echo a b\n".toList) with
            fork := Call.ok 0, past := Ptr.wild }
          ⟨0, 0⟩).trace := by
  decide

/-- C7 fails on the code: the line read at end of input that holds one space
and no newline is not short-circuited, `str_split` returns NULL with `len` 0
for it, and the dispatcher reads `tokens[0]` through the NULL pointer. -/
theorem space_line_null_tokens :
    (" ".toList).head? ≠ some '\n' ∧
      str_split " ".toList [' '] = some ⟨[], 0⟩ ∧
      main_loop_body (quiet_env (ReadResult.line " ".toList)) ⟨0, 0⟩ =
        ⟨Outcome.fault, ⟨0, 0⟩,
          [Event.getcwd, Event.alloc Buf.cwd, Event.show_prompt (some ['/']),
            Event.free Buf.cwd, Event.getline, Event.alloc Buf.input,
            Event.str_split " ".toList]⟩ := by
  decide

theorem select_cd_iff (token_0 : CStr) :
    main_select token_0 = Executor.cd ↔ token_0 = ['c', 'd'] := by
  unfold main_select
  by_cases h1 : token_0 = ['c', 'd']
  · simp [h1]
  · by_cases h2 : token_0 = ['e', 'x', 'i', 't'] <;> simp [h1, h2]

theorem select_exit_iff (token_0 : CStr) :
    main_select token_0 = Executor.exit ↔ token_0 = ['e', 'x', 'i', 't'] := by
  unfold main_select
  by_cases h1 : token_0 = ['c', 'd']
  · subst h1
    simp
  · by_cases h2 : token_0 = ['e', 'x', 'i', 't'] <;> simp [h1, h2]

theorem select_external_iff (token_0 : CStr) :
    main_select token_0 = Executor.external ↔
      token_0 ≠ ['c', 'd'] ∧ token_0 ≠ ['e', 'x', 'i', 't'] := by
  unfold main_select
  by_cases h1 : token_0 = ['c', 'd']
  · simp [h1]
  · by_cases h2 : token_0 = ['e', 'x', 'i', 't'] <;> simp [h1, h2]

theorem fork_not_mem_cd (env : Env) (st : State) (tokens : List CStr) (len : Nat) :
    Event.fork ∉ (main_cd_then_release env st tokens len).trace := by
  have hcd : Event.fork ∉ (main_cd env st tokens len).trace := by
    unfold main_cd main_cd_home main_chdir
    repeat' split
    all_goals simp
  unfold main_cd_then_release
  split
  · simp [hcd, fork_not_mem_release]
  · exact hcd

theorem fork_mem_external (env : Env) (st : State) (tokens : List CStr) (len : Nat) :
    Event.fork ∈ (main_external env st tokens len).trace := by
  simp only [main_external]
  split_ifs <;> simp [Result.after]

/-- C8: the dispatcher chooses by exact, case-sensitive equality of the first
token.  It runs `cd` if and only if the token is `cd`; it runs `exit`, which
ends the process with `EXIT_SUCCESS` whatever the other tokens are, if and
only if the token is `exit`; every other first token, `CD`, `cdx` and `Exit`
among them, goes to the external executor with the full Token Sequence, and
only then is a child forked. -/
theorem dispatch_on_first_token (env : Env) (st : State) (token_0 : CStr)
    (rest : List CStr) (len : Nat) :
    (main_select token_0 = Executor.cd ↔ token_0 = "cd".toList) ∧
    (main_select token_0 = Executor.exit ↔ token_0 = "exit".toList) ∧
    (main_select token_0 = Executor.external ↔
      token_0 ≠ "cd".toList ∧ token_0 ≠ "exit".toList) ∧
    (token_0 = "cd".toList →
      main_dispatch env st (token_0 :: rest) len =
        main_cd_then_release env st (token_0 :: rest) len) ∧
    (token_0 = "exit".toList →
      (main_dispatch env st (token_0 :: rest) len).outcome = Outcome.exit EXIT_SUCCESS) ∧
    (token_0 ≠ "cd".toList → token_0 ≠ "exit".toList →
      main_dispatch env st (token_0 :: rest) len =
        main_external env st (token_0 :: rest) len) ∧
    (Event.fork ∈ (main_dispatch env st (token_0 :: rest) len).trace ↔
      token_0 ≠ "cd".toList ∧ token_0 ≠ "exit".toList) ∧
    main_select "CD".toList = Executor.external ∧
    main_select "cdx".toList = Executor.external ∧
    main_select "Exit".toList = Executor.external := by
  have hcd : "cd".toList = ['c', 'd'] := rfl
  have hexit : "exit".toList = ['e', 'x', 'i', 't'] := rfl
  rw [hcd, hexit]
  refine ⟨select_cd_iff token_0, select_exit_iff token_0, select_external_iff token_0,
    ?_, ?_, ?_, ?_, by decide, by decide, by decide⟩
  · intro h
    simp only [main_dispatch, (select_cd_iff token_0).mpr h]
  · intro h
    simp only [main_dispatch, (select_exit_iff token_0).mpr h, main_exit]
  · intro h1 h2
    simp only [main_dispatch, (select_external_iff token_0).mpr ⟨h1, h2⟩]
  · rw [← select_external_iff]
    simp only [main_dispatch]
    cases hsel : main_select token_0 with
    | cd => simpa using fork_not_mem_cd env st (token_0 :: rest) len
    | exit => simpa [main_exit] using fork_not_mem_release len
    | external => simpa using fork_mem_external env st (token_0 :: rest) len

/-- C9 fails on the code: for the line `cd` the array of tokens has one
element, and `tokens[1]` is the word of the heap behind it.  When that word is
the address of the string `/tmp`, the shell changes to `/tmp` without looking
the account up, while `cd ~` in the same environment changes to the home
directory `/home/user`; when the word is no address at all, `strcmp` reads
through it. -/
theorem cd_without_argument_reads_past_array :
    str_split "cd\n".toList [' '] = some ⟨["cd".toList], 1⟩ ∧
      str_split "cd ~\n".toList [' '] = some ⟨["cd".toList, "~".toList], 2⟩ ∧
      (quiet_env (ReadResult.line "cd\n".toList)).getpwuid = Call.ok "/home/user".toList ∧
      (main_cd { quiet_env (ReadResult.line "cd\n".toList) with past := Ptr.str "/tmp".toList }
        ⟨0, 0⟩ ["cd".toList] 1).trace = [Event.chdir "/tmp".toList] ∧
      (main_cd { quiet_env (ReadResult.line "cd ~\n".toList) with past := Ptr.str "/tmp".toList }
        ⟨0, 0⟩ ["cd".toList, "~".toList] 2).trace =
          [Event.getpwuid, Event.chdir "/home/user".toList] ∧
      Event.chdir "/tmp".toList ∈
        (main_loop_body
          { quiet_env (ReadResult.line "cd\n".toList) with past := Ptr.str "/tmp".toList }
          ⟨0, 0⟩).trace ∧
      Event.chdir "/home/user".toList ∉
        (main_loop_body
          { quiet_env (ReadResult.line "cd\n".toList) with past := Ptr.str "/tmp".toList }
          ⟨0, 0⟩).trace ∧
      (main_loop_body
          { quiet_env (ReadResult.line "cd\n".toList) with past := Ptr.wild }
          ⟨0, 0⟩).outcome = Outcome.fault := by
  decide

/-! ## Every buffer is released once -/

theorem count_free_words (i n : Nat) :
    ((List.range n).map (fun j => Event.free (Buf.word j))).count (Event.free (Buf.word i)) =
      if i < n then 1 else 0 := by
  induction n with
  | zero => simp
  | succ n ih =>
    rw [List.range_succ, List.map_append, List.count_append, ih]
    by_cases h1 : i < n
    · have h2 : n ≠ i := by omega
      have h3 : i < n + 1 := by omega
      simp [h1, h2, h3, List.count_cons]
    · by_cases h2 : n = i
      · subst h2
        simp [List.count_cons]
      · have h3 : ¬ i < n + 1 := by omega
        simp [h1, h2, h3, List.count_cons]

theorem count_alloc_words (i n : Nat) :
    ((List.range n).map (fun j => Event.alloc (Buf.word j))).count (Event.alloc (Buf.word i)) =
      if i < n then 1 else 0 := by
  induction n with
  | zero => simp
  | succ n ih =>
    rw [List.range_succ, List.map_append, List.count_append, ih]
    by_cases h1 : i < n
    · have h2 : n ≠ i := by omega
      have h3 : i < n + 1 := by omega
      simp [h1, h2, h3, List.count_cons]
    · by_cases h2 : n = i
      · subst h2
        simp [List.count_cons]
      · have h3 : ¬ i < n + 1 := by omega
        simp [h1, h2, h3, List.count_cons]

theorem count_other_words (e : Event) (f : Nat → Event) (n : Nat) (h : ∀ j, f j ≠ e) :
    ((List.range n).map f).count e = 0 := by
  rw [List.count_eq_zero]
  intro hm
  obtain ⟨j, _, hj⟩ := List.mem_map.mp hm
  exact h j hj

theorem count_free_release (b : Buf) (len : Nat) :
    (release len).count (Event.free b) = release_count len b := by
  cases b with
  | cwd =>
    simp [release, free_char_array, release_count, List.count_cons, List.count_append,
      count_other_words]
  | input =>
    simp [release, free_char_array, release_count, List.count_cons, List.count_append,
      count_other_words]
  | word i =>
    simp [release, free_char_array, release_count, List.count_cons, List.count_append,
      count_free_words]
  | tokens =>
    simp [release, free_char_array, release_count, List.count_cons, List.count_append,
      count_other_words]

theorem count_alloc_release (b : Buf) (len : Nat) :
    (release len).count (Event.alloc b) = 0 := by
  simp [release, free_char_array, List.count_cons, List.count_append, count_other_words]

theorem count_alloc_split (b : Buf) (len : Nat) :
    (str_split_allocs len).count (Event.alloc b) = split_count len b := by
  cases b with
  | cwd =>
    by_cases h : 0 < len <;>
      simp [str_split_allocs, split_count, List.count_cons, List.count_append,
        count_other_words, h]
  | input =>
    by_cases h : 0 < len <;>
      simp [str_split_allocs, split_count, List.count_cons, List.count_append,
        count_other_words, h]
  | word i =>
    by_cases h : 0 < len <;>
      simp [str_split_allocs, split_count, List.count_cons, List.count_append,
        count_alloc_words, h]
  | tokens =>
    by_cases h : 0 < len <;>
      simp [str_split_allocs, split_count, List.count_cons, List.count_append,
        count_other_words, h]

theorem count_free_split (b : Buf) (len : Nat) :
    (str_split_allocs len).count (Event.free b) = 0 := by
  by_cases h : 0 < len <;>
    simp [str_split_allocs, List.count_cons, List.count_append, count_other_words, h]

theorem main_cd_silent (env : Env) (st : State) (tokens : List CStr) (len : Nat) (b : Buf) :
    (main_cd env st tokens len).trace.count (Event.free b) = 0 ∧
      (main_cd env st tokens len).trace.count (Event.alloc b) = 0 := by
  unfold main_cd main_cd_home main_chdir
  repeat' split
  all_goals simp [List.count_cons]

theorem main_cd_then_release_releases (env : Env) (st : State) (tokens : List CStr)
    (len : Nat) (h : (main_cd_then_release env st tokens len).outcome = Outcome.reprompt) :
    releases len (main_cd_then_release env st tokens len).trace := by
  intro b
  have hs := main_cd_silent env st tokens len b
  unfold main_cd_then_release at h ⊢
  split
  · simp [List.count_append, hs.1, hs.2, count_free_release, count_alloc_release]
  · next hne =>
    split at h
    · next heq => exact absurd heq (hne)
    · exact absurd h (by assumption)

theorem main_child_outcome (env : Env) (st : State) (tokens : List CStr) (len : Nat) :
    (main_child env st tokens len).outcome ≠ Outcome.reprompt := by
  unfold main_child
  repeat' split
  all_goals simp

theorem main_parent_releases (env : Env) (st : State) (pid : Int) (len : Nat) :
    releases len (main_parent env st pid len).trace := by
  intro b
  unfold main_parent
  repeat' split
  all_goals
    simp [List.count_cons, List.count_append, count_free_release, count_alloc_release]

theorem main_external_releases (env : Env) (st : State) (tokens : List CStr)
    (len : Nat) (h : (main_external env st tokens len).outcome = Outcome.reprompt) :
    releases len (main_external env st tokens len).trace := by
  intro b
  simp only [main_external] at h ⊢
  by_cases h1 : (fork_result env st).1 = -1
  · simp [h1] at h
  · by_cases h2 : (fork_result env st).1 = 0
    · simp only [h1, h2, if_false, if_true, Result.after] at h
      exact absurd h (main_child_outcome env _ tokens len)
    · have hp := main_parent_releases env (deliver env.signals_fork (fork_result env st).2)
        (fork_result env st).1 len b
      simp only [h1, h2, if_false, Result.after]
      simpa [List.count_cons] using hp

theorem main_dispatch_releases (env : Env) (st : State) (tokens : List CStr)
    (len : Nat) (h : (main_dispatch env st tokens len).outcome = Outcome.reprompt) :
    tokens ≠ [] ∧ releases len (main_dispatch env st tokens len).trace := by
  cases tokens with
  | nil => simp [main_dispatch] at h
  | cons token_0 rest =>
    refine ⟨by simp, ?_⟩
    simp only [main_dispatch] at h ⊢
    cases hsel : main_select token_0 with
    | cd =>
      rw [hsel] at h
      exact main_cd_then_release_releases env st _ len h
    | exit =>
      rw [hsel] at h
      simp [main_exit] at h
    | external =>
      rw [hsel] at h
      exact main_external_releases env st _ len h

theorem split_len_eq (input : CStr) (sp : Split) (h : str_split input [' '] = some sp) :
    sp.len = sp.tokens.length := by
  rw [str_split_eq_words] at h
  simp only [Option.some.injEq] at h
  subst h
  simp

/-- Behind a line that was read, a pass that goes back to prompting frees the
line buffer once and frees exactly what `str_split` allocated, once each. -/
theorem main_line_counts (env : Env) (st : State) (input : CStr)
    (h : (main_line env st input).outcome = Outcome.reprompt) (b : Buf) :
    (main_line env st input).trace.count (Event.free b) =
        (main_line env st input).trace.count (Event.alloc b) + (if b = Buf.input then 1 else 0) ∧
      (main_line env st input).trace.count (Event.free b) ≤ 1 ∧
      (main_line env st input).trace.count (Event.free Buf.cwd) = 0 ∧
      (input.head? ≠ some '\n' → ∀ sp, str_split input [' '] = some sp →
        (main_line env st input).trace.count (Event.free b) = release_count sp.len b) := by
  unfold main_line at h ⊢
  by_cases hnl : input.head? = some '\n'
  · simp only [hnl, if_true]
    cases b <;> simp [List.count_cons]
  · simp only [hnl, if_false] at h ⊢
    cases hsp : str_split input [' '] with
    | none => simp [hsp] at h
    | some sp =>
      simp only [hsp, Result.after] at h ⊢
      obtain ⟨hne, hrel⟩ := main_dispatch_releases env st sp.tokens sp.len h
      have hlen : 0 < sp.len := by
        rw [split_len_eq input sp hsp]
        exact List.length_pos.mpr hne
      have hcount : (Event.str_split input :: str_split_allocs sp.len ++
          (main_dispatch env st sp.tokens sp.len).trace).count (Event.free b) =
            release_count sp.len b := by
        simp [List.count_cons, List.count_append, count_free_split, (hrel b).1]
      have hcount2 : (Event.str_split input :: str_split_allocs sp.len ++
          (main_dispatch env st sp.tokens sp.len).trace).count (Event.alloc b) =
            split_count sp.len b := by
        simp [List.count_cons, List.count_append, count_alloc_split, (hrel b).2]
      have hcount3 : (Event.str_split input :: str_split_allocs sp.len ++
          (main_dispatch env st sp.tokens sp.len).trace).count (Event.free Buf.cwd) = 0 := by
        simp [List.count_cons, List.count_append, count_free_split, (hrel Buf.cwd).1,
          release_count]
      rw [hcount, hcount2, hcount3]
      refine ⟨?_, ?_, rfl, ?_⟩
      · cases b <;> simp [release_count, split_count, hlen]
      · cases b <;> simp [release_count]
        split <;> omega
      · intro _ sp2 h2
        cases h2
        rfl

/-- C6: on every pass through the loop body that goes back to prompting, each
block is freed exactly as often as it was allocated and never twice; the line
buffer of a line that was read is freed exactly once; and when `str_split` was
called, the array of tokens and each of the `len` words are freed exactly once. -/
theorem buffers_released_once (env : Env) (st : State)
    (h : (main_loop_body env st).outcome = Outcome.reprompt) :
    (∀ b, (main_loop_body env st).trace.count (Event.free b) =
          (main_loop_body env st).trace.count (Event.alloc b) ∧
        (main_loop_body env st).trace.count (Event.free b) ≤ 1) ∧
    (∀ input, env.getline = ReadResult.line input →
      Event.getline ∈ (main_loop_body env st).trace →
        (main_loop_body env st).trace.count (Event.free Buf.input) = 1) ∧
    (∀ input sp, env.getline = ReadResult.line input →
      Event.getline ∈ (main_loop_body env st).trace →
      input.head? ≠ some '\n' → str_split input [' '] = some sp →
        (main_loop_body env st).trace.count (Event.free Buf.tokens) = 1 ∧
          ∀ i, i < sp.len →
            (main_loop_body env st).trace.count (Event.free (Buf.word i)) = 1) := by
  have hread : (main_read env (state_after_getcwd env st)).outcome = Outcome.reprompt →
      (∀ b, (main_read env (state_after_getcwd env st)).trace.count (Event.free b) =
            (main_read env (state_after_getcwd env st)).trace.count (Event.alloc b) ∧
          (main_read env (state_after_getcwd env st)).trace.count (Event.free b) ≤ 1) ∧
      (main_read env (state_after_getcwd env st)).trace.count (Event.free Buf.cwd) = 0 ∧
      (∀ input, env.getline = ReadResult.line input →
        ∀ b, (main_read env (state_after_getcwd env st)).trace.count (Event.free b) =
          (main_line env (state_after_getline env (state_after_getcwd env st))
            input).trace.count (Event.free b)) ∧
      (∀ input, env.getline = ReadResult.line input →
        (main_line env (state_after_getline env (state_after_getcwd env st))
          input).outcome = Outcome.reprompt) := by
    intro hr
    unfold main_read at hr ⊢
    cases hg : env.getline with
    | failure buffer err =>
      simp only [hg, Result.after] at hr ⊢
      unfold main_read_failed at hr ⊢
      by_cases hc : (state_after_getline env (state_after_getcwd env st)).interrupted = 1 ∨
          (state_after_getline env (state_after_getcwd env st)).errno = EINTR
      · simp only [hc, if_true]
        refine ⟨?_, ?_, by simp, by simp⟩
        · intro b
          cases buffer <;> cases b <;> simp [List.count_cons]
        · cases buffer <;> simp [List.count_cons]
      · simp [hc] at hr
    | line input =>
      simp only [hg, Result.after] at hr ⊢
      have hl := main_line_counts env (state_after_getline env (state_after_getcwd env st))
        input hr
      refine ⟨?_, ?_, ?_, ?_⟩
      · intro b
        have hb := hl b
        cases b <;> simp [List.count_cons] at hb ⊢ <;> omega
      · simpa [List.count_cons] using (hl Buf.cwd).2.2.1
      · intro input2 h2 b
        cases h2
        simp [List.count_cons]
      · intro input2 h2
        cases h2
        exact hr
  unfold main_loop_body at h ⊢
  cases hcwd : env.getcwd with
  | error e =>
    by_cases he : e = EINTR
    · simp only [he, if_true]
      refine ⟨?_, by simp, by simp⟩
      intro b
      simp [List.count_cons]
    · simp only [hcwd, he, if_false, Result.after] at h ⊢
      obtain ⟨h1, h0, h2, h3⟩ := hread h
      refine ⟨?_, ?_, ?_⟩
      · intro b
        have hb := h1 b
        simpa [List.count_cons] using hb
      · intro input hin _
        have hl := main_line_counts env _ input (h3 input hin) Buf.input
        have hb := h2 input hin Buf.input
        have h1b := h1 Buf.input
        simp only [List.count_cons, List.count_append] at hb ⊢
        simp only [if_true] at hl
        simp
        omega
      · intro input sp hin _ hnl hsp
        have hl := fun b => (main_line_counts env _ input (h3 input hin) b).2.2.2 hnl sp hsp
        refine ⟨?_, ?_⟩
        · have hb := h2 input hin Buf.tokens
          have := hl Buf.tokens
          simp [List.count_cons, hb, this, release_count]
        · intro i hi
          have hb := h2 input hin (Buf.word i)
          have := hl (Buf.word i)
          simp [List.count_cons, hb, this, release_count, hi]
  | ok cwd =>
    simp only [hcwd, Result.after] at h ⊢
    obtain ⟨h1, h0, h2, h3⟩ := hread h
    refine ⟨?_, ?_, ?_⟩
    · intro b
      have hb := h1 b
      cases b <;> simp [List.count_cons] at hb ⊢ <;> omega
    · intro input hin _
      have hl := main_line_counts env _ input (h3 input hin) Buf.input
      have hb := h2 input hin Buf.input
      have h1b := h1 Buf.input
      simp only [if_true] at hl
      simp [List.count_cons]
      omega
    · intro input sp hin _ hnl hsp
      have hl := fun b => (main_line_counts env _ input (h3 input hin) b).2.2.2 hnl sp hsp
      refine ⟨?_, ?_⟩
      · have hb := h2 input hin Buf.tokens
        have := hl Buf.tokens
        simp [List.count_cons, hb, this, release_count]
      · intro i hi
        have hb := h2 input hin (Buf.word i)
        have := hl (Buf.word i)
        simp [List.count_cons, hb, this, release_count, hi]

/-- C6 at the line `ls -l`, run as an external command and waited for. -/
theorem buffers_released_once_witness :
    (main_loop_body (quiet_env (ReadResult.line "ls -l\n".toList)) ⟨0, 0⟩).outcome =
        Outcome.reprompt ∧
      ∀ b, (main_loop_body (quiet_env (ReadResult.line "ls -l\n".toList)) ⟨0, 0⟩).trace.count
            (Event.free b) =
          (main_loop_body (quiet_env (ReadResult.line "ls -l\n".toList)) ⟨0, 0⟩).trace.count
            (Event.alloc b) ∧
        (main_loop_body (quiet_env (ReadResult.line "ls -l\n".toList)) ⟨0, 0⟩).trace.count
            (Event.free b) ≤ 1 :=
  ⟨by decide,
    (buffers_released_once (quiet_env (ReadResult.line "ls -l\n".toList)) ⟨0, 0⟩
      (by decide)).1⟩

end CShell
